import Mathlib

/-!
# CppUnitLite — shallow embedding and verification

A shallow embedding of the CppUnitLite test harness (registry, execution
engine, reporter, matcher library, value representation) translated from the
C++ sources, together with theorems settling the specification claims.

Sources embedded here:
* the TAP-style engine/reporter translation unit (`runTestGuarded`,
  `runTestUntimed`, `runTest`, `runTests`, the `msg*` family, and the
  `getStringRepr` specializations);
* the library header (`getStringRepr2`, `ApproximatelyEqualToMatcher`,
  `NotMatcher`, string matchers).

Modelling conventions:
* machine integers become `Nat`/`Int` (counters only ever move by ±1 and the
  single decrement is guarded by a preceding increment, so `Nat` is exact);
* `std::string` becomes `String` / `List Char`;
* the C++ exception/`longjmp` control flow of a test body becomes an explicit
  `BodyBehavior` datum describing how the body terminates;
* the worker thread's result slot becomes an explicit `Option Nat` giving the
  first polling check at which the deposited result is visible (`none` when
  the body never deposits a result);
* output streams become an accumulated `String`.
-/

namespace CppUnitLite

/-- Apostrophe character, kept out of string literals. -/
def quoteChar : Char := Char.ofNat 39

/-- `AssertionResult` from the library header: a boolean verdict plus the two
advisory narratives. -/
structure AssertionResult where
  result : Bool
  passExplanation : String
  failExplanation : String
deriving Repr, DecidableEq

/-- A matcher is a capability object with a single `eval` operation; in the
embedding it is simply the evaluation function. -/
def Matcher (α : Type) : Type := α → AssertionResult

/-- Numeric rendering used inside matcher narratives.  The C++ code streams
the value through `operator<<`; for the rational instantiation used here we
render with `toString`. -/
def reprQ (q : ℚ) : String := toString q

/-- `ApproximatelyEqualToMatcher<T,U>::eval` from the library header:
fails when `left < right - delta || left > right + delta`, passes otherwise.
Embedded over `ℚ`. -/
def approximatelyEqualTo (right delta : ℚ) : Matcher ℚ := fun left =>
  let leftStr := reprQ left
  let rightPlusStr := reprQ (right + delta)
  let rightMinusStr := reprQ (right - delta)
  let passExplain := leftStr ++ " is between " ++ rightMinusStr ++ " and " ++ rightPlusStr
  if left < right - delta ∨ left > right + delta then
    AssertionResult.mk false passExplain
      (leftStr ++ " is outside the range " ++ reprQ (right - delta)
        ++ " .. " ++ reprQ (right + delta))
  else
    AssertionResult.mk true passExplain ""

/-- `NotMatcher<T>::eval` from the library header: invert the verdict and
swap the two narratives. -/
def notMatcher {α : Type} (m : Matcher α) : Matcher α := fun u =>
  let r := m u
  AssertionResult.mk (!r.result) r.failExplanation r.passExplanation

/-- `getStringRepr(std::string)` specialization: double-quote the string. -/
def getStringReprStr (t : String) : String := "\"" ++ t ++ "\""

/-- Does `pat` occur at the head of `cs`?  (Element-wise comparison used by
`std::string::find`.) -/
def startsWithL (pat cs : List Char) : Bool :=
  match pat, cs with
  | [], _ => true
  | _ :: _, [] => false
  | p :: ps, c :: rest => p = c && startsWithL ps rest

/-- `std::string::find`: position of the first occurrence of `pat` in `hay`,
or `none` for `npos`. -/
def findSub (hay pat : List Char) : Option Nat :=
  match hay with
  | [] => if startsWithL pat [] then some 0 else none
  | _ :: rest =>
    if startsWithL pat hay then some 0
    else (findSub rest pat).map (· + 1)

/-- A guarded character access: `e.begin() + i` dereferenced, `none` when the
position is out of range.  Used to show the string matchers never read out of
range. -/
def charAt (cs : List Char) (i : Nat) : Option Char := cs.get? i

/-- `std::equal(first, last, other)` where `other` starts at position
`offset` of `e`, with every dereference range-checked: `none` means an
out-of-range access would have occurred. -/
def equalRangeChecked (pat e : List Char) (offset : Nat) : Option Bool :=
  match pat with
  | [] => some true
  | p :: ps =>
    match charAt e offset with
    | none => none
    | some c => if p = c then equalRangeChecked ps e (offset + 1) else some false

/-- `StringEndsWithMatcher::eval`: the length test `right.size() <= e.size()`
short-circuits `&&`, so the element-wise pass is only attempted when it
holds.  The `Option` layer records whether any out-of-range access happened. -/
def stringEndsWithEval (right e : List Char) : Option AssertionResult :=
  let eStr := getStringReprStr (String.mk e)
  let rightStr := getStringReprStr (String.mk right)
  if right.length ≤ e.length then
    match equalRangeChecked right e (e.length - right.length) with
    | none => none
    | some b =>
      some (AssertionResult.mk b (eStr ++ " ends with " ++ rightStr)
        (eStr ++ " does not end with " ++ rightStr))
  else
    some (AssertionResult.mk false (eStr ++ " ends with " ++ rightStr)
      (eStr ++ " does not end with " ++ rightStr))

/-- `StringBeginsWithMatcher::eval`: same shape, comparing at offset 0. -/
def stringBeginsWithEval (right e : List Char) : Option AssertionResult :=
  let eStr := getStringReprStr (String.mk e)
  let rightStr := getStringReprStr (String.mk right)
  if right.length ≤ e.length then
    match equalRangeChecked right e 0 with
    | none => none
    | some b =>
      some (AssertionResult.mk b (eStr ++ " begins with " ++ rightStr)
        (eStr ++ " does not begin with " ++ rightStr))
  else
    some (AssertionResult.mk false (eStr ++ " begins with " ++ rightStr)
      (eStr ++ " does not begin with " ++ rightStr))

/-!
## Representation / Introspection

`getStringRepr` dispatches on a static capability: a streamable type uses
`operator<<` (with the string/char/bool specializations of the engine source),
an iterable type uses the bracketed-list branch of `getStringRepr2`, and any
other type renders as `"???"`.  The universe `RValue` has one constructor per
capability class; `container` values are (by the header's `enable_if`
conditions) exactly the non-streamable iterable ones, and `unprintable` the
values with neither capability. -/

/-- A value as seen by the three-tier capability dispatch. -/
inductive RValue where
  | str : String → RValue
  | chr : Char → RValue
  | boolVal : Bool → RValue
  | intVal : Int → RValue
  | container : List RValue → RValue
  | unprintable : RValue
deriving Repr

mutual

/-- `getStringRepr`: capability dispatch plus the engine-source
specializations (strings double-quoted, chars single-quoted, booleans as the
words `true`/`false`). -/
def getStringRepr : RValue → String
  | .str s => "\"" ++ s ++ "\""
  | .chr c => String.mk [quoteChar, c, quoteChar]
  | .boolVal b => if b then "true" else "false"
  | .intVal n => toString n
  | .container es =>
    let p := renderElems es es.length 0
    "[" ++ p.1
      ++ (if p.2 > 0 then "... (" ++ toString p.2 ++ " additional elements) ..." else "")
      ++ "]"
  | .unprintable => "???"

/-- The element loop of the iterable branch of `getStringRepr2`: `n` is the
remaining distance to `end()`, `count` the number of elements already
displayed; the loop stops at the `ContainerDisplayLimit` of 10.  Returns the
accumulated text and the final value of `n` (the number of omitted
elements). -/
def renderElems : List RValue → Nat → Nat → String × Nat
  | [], n, _ => ("", n)
  | e :: rest, n, count =>
    if n = 0 then ("", n)
    else
      let s := getStringRepr e ++ (if n > 1 then ", " else "")
      let n1 := n - 1
      let c1 := count + 1
      if c1 ≥ 10 ∧ n1 > 0 then (s ++ "...", n1)
      else
        let p := renderElems rest n1 c1
        (s ++ p.1, p.2)

end

/-- Comma-separated join, as produced by the element loop for a fully
displayed container. -/
def commaJoin : List String → String
  | [] => ""
  | [s] => s
  | s :: rest => s ++ ", " ++ commaJoin rest

/-!
## Reporter — the `msg*` family of the TAP-style engine source

Output is modelled as the string written to the standard output stream.
-/

/-- `UnitTest::msg`: print the message and append a newline unless the
message is empty or already ends in one. -/
def msgOut (s : String) : String :=
  if s.length > 0 ∧ s.toList.getLast? ≠ some '\n' then s ++ "\n" else s

/-- The comment marker `"# "`. -/
def commentMark : List Char := ['#', ' ']

/-- The scan-and-insert loop of `UnitTest::msgComment`: after every newline,
insert the comment marker unless the next two characters already are it.
(In the C++ code this is an index-based `find`/`insert` loop over the result
string; since the inserted marker contains no newline, its effect is exactly
this per-line pass.) -/
def commentBody : List Char → List Char
  | [] => []
  | c :: rest =>
    if c = '\n' then
      '\n' :: ((if rest.take 2 = commentMark then [] else commentMark) ++ commentBody rest)
    else c :: commentBody rest

/-- `UnitTest::msgComment` on character lists: ensure the first line and
every subsequent line carry the `"# "` marker. -/
def msgCommentL (cs : List Char) : List Char :=
  (if cs.take 2 = commentMark then [] else commentMark) ++ commentBody cs

/-- `UnitTest::msgComment`. -/
def msgComment (s : String) : String := String.mk (msgCommentL s.toList)

/-- `UnitTest::msgPassed`: the TAP success line. -/
def msgPassedStr (n : Nat) (name : String) : String :=
  "ok " ++ toString n ++ " - " ++ name ++ "\n"

/-- `UnitTest::msgFailed`: comment-prefixed diagnostics and the `not ok`
result line, ordered by `diagnosticMessagesBeforeResults` (`flag`).  The
`timeMS` argument of the C++ function does not influence the string and is
dropped. -/
def msgFailedStr (flag : Bool) (n : Nat) (name : String) (diagnostics : String) : String :=
  let diagnosticString := msgComment diagnostics
  let resultMsg := "not ok " ++ toString n ++ " - " ++ name
  if flag then diagnosticString ++ "\n" ++ resultMsg
  else resultMsg ++ "\n" ++ diagnosticString

/-- `UnitTest::msgXPassed` (passed but was expected to fail): printed via
`msg(msgFailed(...))`. -/
def msgXPassedStr (flag : Bool) (n : Nat) (name : String) : String :=
  msgOut (msgFailedStr flag n name
    ("Test " ++ toString n ++ " - " ++ name ++ " passed but was expected to fail."))

/-- `UnitTest::msgXFailed` (failed as expected): a comment plus the `ok`
line, comment position per `flag`.  (Its `diagnostics` argument is unused by
the C++ code and dropped here.) -/
def msgXFailedStr (flag : Bool) (n : Nat) (name : String) : String :=
  let d := msgComment ("Test " ++ toString n ++ " failed but was expected to fail.")
  (if flag then msgOut d else "") ++ msgPassedStr n name ++ (if flag then "" else msgOut d)

/-- `UnitTest::msgError`: an `ERROR` comment around a `not ok` line. -/
def msgErrorStr (flag : Bool) (n : Nat) (name : String) (diagnostics : String) : String :=
  let d := msgComment ("ERROR - " ++ diagnostics)
  (if flag then msgOut d else "")
    ++ msgOut ("not ok " ++ toString n ++ " - " ++ name)
    ++ (if flag then "" else msgOut d)

/-- One-decimal fixed-point rendering of the percentage `100 * num / den`,
modelling the `setprecision(1)` floating-point output (rounded to nearest). -/
def oneDecimal (num den : Nat) : String :=
  if den = 0 then "nan"
  else
    let scaled := (1000 * num + den / 2) / den
    toString (scaled / 10) ++ "." ++ toString (scaled % 10)

/-- `UnitTest::msgSummary`: the trailing summary line.  `getNumTests()` is
`numSuccesses + numFailures`. -/
def msgSummaryStr (succ fail : Nat) : String :=
  "# UnitTest: passed " ++ toString succ ++ " out of " ++ toString (succ + fail)
    ++ " tests, for a success rate of " ++ oneDecimal succ (succ + fail) ++ "%" ++ "\n"

/-!
## Execution engine

A test body is a C++ procedure; all the engine observes of it is how it
terminates (`BodyBehavior`), whether it called `UnitTest::expectedToFail()`
(`setsExpect` — the engine resets `expectToFail` to `false` before the body
runs), and, for the timed path, at which polling check its deposited result
slot becomes visible to the controller (`depositAt`, `none` when the body
never deposits a result).
-/

/-- How a test body terminates. -/
inductive BodyBehavior where
  | normalReturn : BodyBehavior
  | assertFailure : String → BodyBehavior
  | stdException : String → BodyBehavior
  | otherException : BodyBehavior
  | fault : Nat → BodyBehavior
deriving Repr, DecidableEq

/-- The dynamic behavior of one registered test body. -/
structure TestRun where
  behavior : BodyBehavior
  setsExpect : Bool
  depositAt : Option Nat
deriving Repr

/-- The engine's global state: the three counters, the failed-test list and
the accumulated output. -/
structure RunState where
  numSuccesses : Nat
  numFailures : Nat
  numErrors : Nat
  failedTests : List String
  output : String
deriving Repr, DecidableEq

/-- State before the run: zeroed counters, empty lists, no output. -/
def RunState.initial : RunState := ⟨0, 0, 0, [], ""⟩

/-- Append text to the output stream. -/
def RunState.emit (st : RunState) (s : String) : RunState :=
  { st with output := st.output ++ s }

/-- The sum of the three outcome counters. -/
def totalOf (st : RunState) : Nat := st.numSuccesses + st.numFailures + st.numErrors

/-- `UnitTest::runTestGuarded`: given how the body terminated and the final
value of `expectToFail`, produce the result code (1 = passed, 0 = failed,
-1 = error), the text printed from inside the guarded call, and
`testExplanation` (printed later by the caller). -/
def runTestGuardedM (flag : Bool) (n : Nat) (name : String)
    (b : BodyBehavior) (e : Bool) : Int × String × String :=
  match b, e with
  | .normalReturn, false => (1, msgPassedStr n name, "")
  | .normalReturn, true => (0, msgXPassedStr flag n name, "")
  | .assertFailure w, false => (0, "", msgFailedStr flag n name w)
  | .assertFailure _, true => (1, msgXFailedStr flag n name, "")
  | .stdException w, false =>
    (-1, msgErrorStr flag n name ("Unexpected error in " ++ name ++ ": " ++ w), "")
  | .stdException _, true => (1, msgXFailedStr flag n name, "")
  | .otherException, false =>
    (-1, msgErrorStr flag n name ("Unexpected error in " ++ name), "")
  | .otherException, true => (1, msgXFailedStr flag n name, "")
  | .fault sig, false => (-1, "", msgFailedStr flag n name ("# runtime error " ++ toString sig))
  | .fault _, true => (1, msgXFailedStr flag n name, "")

/-- The result ladder shared by `runTestUntimed` and the completed branch of
`runTest`: 1 increments successes; 0 increments failures; -1 increments
errors; the latter two record the failed name and print the explanation. -/
def runResultLadder (st : RunState) (name : String) (code : Int) (expl : String) : RunState :=
  if code = 1 then { st with numSuccesses := st.numSuccesses + 1 }
  else if code = 0 then
    { st with numFailures := st.numFailures + 1,
              failedTests := st.failedTests ++ [name] }.emit (msgOut expl)
  else if code = -1 then
    { st with numErrors := st.numErrors + 1,
              failedTests := st.failedTests ++ [name] }.emit (msgOut expl)
  else st

/-- `UnitTest::runTestUntimed`. -/
def runTestUntimedM (flag : Bool) (n : Nat) (name : String)
    (b : BodyBehavior) (e : Bool) (st : RunState) : RunState :=
  let r := runTestGuardedM flag n name b e
  runResultLadder (st.emit r.2.1) name r.1 r.2.2

/-- Is the deposited result visible to the controller at polling check `i`? -/
def visibleAt (dep : Option Nat) (i : Nat) : Bool :=
  match dep with
  | none => false
  | some d => d ≤ i

/-- The polling loop of `UnitTest::runTest`: check `i` compares the elapsed
time `i * 100` (the 100 ms increment) against the limit; the loop finishes
when the result is visible or the limit has elapsed.  Returns `true` when it
finished with `testResult` still undeposited (`< -1`), i.e. a timeout. -/
def pollTimedOut (dep : Option Nat) (limit : Nat) (i : Nat) : Bool :=
  if visibleAt dep i then false
  else if limit ≤ i * 100 then true
  else pollTimedOut dep limit (i + 1)
termination_by limit - i * 100
decreasing_by simp_wf; omega

/-- The timeout branch of `UnitTest::runTest` (the `testResult < -1` case):
increment the failure counter, record the failed name, report the
still-running diagnostic — through `msgFailed` when the test was not expected
to fail, otherwise through `msgXFailed` followed by the compensating
`++numSuccesses; --numFailures`. -/
def timeoutBranch (flag : Bool) (n : Nat) (name : String) (e : Bool)
    (timeLimit : Int) (st : RunState) : RunState :=
  let st := { st with numFailures := st.numFailures + 1,
                      failedTests := st.failedTests ++ [name] }
  let out := "# Test " ++ toString n ++ " - " ++ name ++ " still running after "
    ++ toString timeLimit ++ " milliseconds - possible infinite loop?"
  if ¬ e then st.emit (msgOut (msgFailedStr flag n name out))
  else
    let st := st.emit (msgXFailedStr flag n name)
    { st with numSuccesses := st.numSuccesses + 1, numFailures := st.numFailures - 1 }

/-- `UnitTest::runTest`: with a positive time limit and no debugger, spawn
the worker and poll; `pollTimedOut` decides between the timeout branch and
the ordinary result ladder.  Otherwise run untimed.  The worker is only
abandoned on timeout — the model takes no action against it. -/
def runTestM (flag debugger : Bool) (st : RunState) (n : Nat) (name : String)
    (tr : TestRun) (timeLimit : Int) : RunState :=
  if 0 < timeLimit ∧ ¬ debugger then
    if pollTimedOut tr.depositAt timeLimit.toNat 0 then
      timeoutBranch flag n name tr.setsExpect timeLimit st
    else
      let r := runTestGuardedM flag n name tr.behavior tr.setsExpect
      runResultLadder (st.emit r.2.1) name r.1 r.2.2
  else
    runTestUntimedM flag n name tr.behavior tr.setsExpect st

/-!
## Registry and driver — `UnitTest::runTests`

The registry (`std::map<std::string, BoundedTest>`) is a list of
(name, timeLimit) pairs with unique names, listed in the map's iteration
order.  The `std::set<std::string> testsToRun` is modelled as a
duplicate-free list in insertion order. -/

/-- Insert into the `testsToRun` set: no effect when already present. -/
def setInsert (s : List String) (x : String) : List String :=
  if x ∈ s then s else s ++ [x]

/-- The "initialism" reduction of a test name: its first character followed
by every later character in the range `'A'..'Z'` (the loop
`for i = 1; i < size; ++i`). -/
def initialism : List Char → List Char
  | [] => []
  | c :: rest => c :: rest.filter (fun ch => 'A' ≤ ch && ch ≤ 'Z')

/-- The registered names whose name contains `tok` as a substring
(`utest.first.find(testID) != npos`). -/
def substrSelect (names : List String) (tok : String) : List String :=
  names.filter (fun nm => (findSub nm.toList tok.toList).isSome)

/-- The registered names whose initialism equals `tok` exactly. -/
def initialismSelect (names : List String) (tok : String) : List String :=
  names.filter (fun nm => initialism nm.toList = tok.toList)

/-- The token loop of `runTests`: for each token insert all substring
matches; only if there were none, insert all initialism matches; if still
none, append a warning line naming the token and continue. -/
def selectLoop (names : List String) (acc : List String) (warnings : String) :
    List String → List String × String
  | [] => (acc, warnings)
  | tok :: toks =>
    let subs := substrSelect names tok
    if subs ≠ [] then selectLoop names (subs.foldl setInsert acc) warnings toks
    else
      let inits := initialismSelect names tok
      if inits ≠ [] then selectLoop names (inits.foldl setInsert acc) warnings toks
      else
        selectLoop names acc
          (warnings ++ "# Warning: No matching test found for input specification "
            ++ tok ++ "\n") toks

/-- `(*tests)[testName].timeLimit`; a missing name default-constructs
`BoundedTest` with time limit 0. -/
def lookupTimeLimit (reg : List (String × Int)) (name : String) : Int :=
  match reg.find? (fun p => p.1 = name) with
  | some p => p.2
  | none => 0

/-- The run loop of `runTests`: execute the selected tests in order,
numbering from 1. -/
def runSelected (flag debugger : Bool) (reg : List (String × Int))
    (env : String → TestRun) (st : RunState) (n : Nat) : List String → RunState
  | [] => st
  | name :: rest =>
    runSelected flag debugger reg env
      (runTestM flag debugger st n name (env name) (lookupTimeLimit reg name))
      (n + 1) rest

/-- `UnitTest::runTests`: build `testsToRun` from the filter tokens (filling
it with every registered test when it ends up empty), emit the TAP plan line
and the accumulated warnings, then run the selected tests. -/
def runTestsM (flag debugger : Bool) (reg : List (String × Int))
    (env : String → TestRun) (toks : List String) : RunState :=
  let names := reg.map Prod.fst
  let sel := selectLoop names [] "" toks
  let selected := if sel.1 = [] then names.foldl setInsert [] else sel.1
  let st := RunState.initial.emit (msgOut ("1.." ++ toString selected.length))
  let st := st.emit (msgOut sel.2)
  runSelected flag debugger reg env st 1 selected

/-- The names selected by `runTestsM` (the contents of `testsToRun`). -/
def selectedTests (reg : List (String × Int)) (toks : List String) : List String :=
  let names := reg.map Prod.fst
  let sel := selectLoop names [] "" toks
  if sel.1 = [] then names.foldl setInsert [] else sel.1

/-- `main`: `runTests` followed by `report()` (which prints the summary). -/
def fullRunM (flag debugger : Bool) (reg : List (String × Int))
    (env : String → TestRun) (toks : List String) : RunState :=
  let st := runTestsM flag debugger reg env toks
  st.emit (msgSummaryStr st.numSuccesses st.numFailures)

/-!
## Outcome classification

The final outcome of one test execution, as defined by the code paths of
`runTestGuarded` / `runTest`. -/

/-- The four outcome classes. -/
inductive Outcome where
  | success : Outcome
  | failure : Outcome
  | error : Outcome
  | timeout : Outcome
deriving Repr, DecidableEq

/-- The underlying (pre-inversion) classification of §4.2 step 6: normal
return ⇒ Success, structured assertion failure ⇒ Failure, other exception or
trapped fault ⇒ Error, an elapsed limit with no deposited result ⇒ Timeout. -/
def underlyingOf : Option BodyBehavior → Outcome
  | some .normalReturn => .success
  | some (.assertFailure _) => .failure
  | some (.stdException _) => .error
  | some .otherException => .error
  | some (.fault _) => .error
  | none => .timeout

/-- Outcome denoted by a `runTestGuarded` result code, per the result
ladder: 1 counts a success, 0 a failure, -1 an error. -/
def outcomeOfCode (c : Int) : Outcome :=
  if c = 1 then .success else if c = 0 then .failure else .error

/-- The final outcome the code assigns to one execution: for a completed
body, the ladder classification of the `runTestGuarded` result code; for an
undeposited result, the timeout branch of `runTest` — the failure-class
still-running report (the Timeout outcome), except that with `expectToFail`
set the branch moves the count to the success counter. -/
def runOutcome (flag : Bool) (n : Nat) (name : String)
    (r : Option BodyBehavior) (e : Bool) : Outcome :=
  match r with
  | some b => outcomeOfCode (runTestGuardedM flag n name b e).1
  | none => if e then .success else .timeout

/-- Modelled from the spec: the expectation-inversion rule of §4.2 step 7 —
with the flag clear the outcome is the underlying result; with it set, an
underlying Success becomes Failure and everything else becomes Success. -/
def specInversion (u : Outcome) (e : Bool) : Outcome :=
  if e then
    match u with
    | .success => .failure
    | _ => .success
  else u

/-- Split a character list into its newline-separated lines (always at least
one line; a trailing newline yields a trailing empty line). -/
def splitLines : List Char → List (List Char)
  | [] => [[]]
  | c :: rest =>
    if c = '\n' then [] :: splitLines rest
    else
      match splitLines rest with
      | [] => [[c]]
      | l :: ls => (c :: l) :: ls

/-- Ensure one line carries the comment marker. -/
def ensureMark (l : List Char) : List Char :=
  if l.take 2 = commentMark then l else commentMark ++ l

/-- The first newline-separated line of a character list. -/
def firstLineOf (cs : List Char) : List Char := (splitLines cs).headI

/-!
## Concrete run used as a worked example

One registered test, `alpha`, whose body raises an assertion failure. -/

/-- Example registry: the single untimed test `alpha`. -/
def exampleReg : List (String × Int) := [("alpha", 0)]

/-- Example behaviors: `alpha` raises an assertion failure. -/
def exampleEnv : String → TestRun := fun _ =>
  { behavior := .assertFailure "at t.cpp:3\n\tboom", setsExpect := false, depositAt := some 0 }

/-- The example's final engine state (diagnostics before results, no
debugger, no filter tokens). -/
def exampleRun : RunState := fullRunM true false exampleReg exampleEnv []

/-- Concatenation of the per-token warning lines accumulated by the token
loop. -/
def joinWarnings : List String → String
  | [] => ""
  | s :: rest => s ++ joinWarnings rest

/-!
## Helper lemmas
-/

/-- A range-checked element-wise comparison that stays in range never reports
an out-of-range access. -/
lemma equalRangeChecked_isSome (pat : List Char) :
    ∀ (e : List Char) (off : Nat), off + pat.length ≤ e.length →
      (equalRangeChecked pat e off).isSome := by
  induction pat with
  | nil => intro e off _; simp [equalRangeChecked]
  | cons p ps ih =>
    intro e off h
    have hlt : off < e.length := by simp at h; omega
    obtain ⟨c, hc⟩ : ∃ c, charAt e off = some c := by
      unfold charAt
      rw [List.get?_eq_get hlt]
      exact ⟨_, rfl⟩
    simp only [equalRangeChecked, hc]
    by_cases hpc : p = c
    · simp only [if_pos hpc]
      exact ih e (off + 1) (by simp at h ⊢; omega)
    · simp [if_neg hpc]

/-- With no deposited result, the polling loop always finishes — by timing
out. -/
lemma pollTimedOut_none (limit : Nat) : ∀ i, pollTimedOut none limit i = true := by
  have key : ∀ k i, limit - i * 100 ≤ k → pollTimedOut none limit i = true := by
    intro k
    induction k with
    | zero =>
      intro i h
      rw [pollTimedOut]
      have hl : limit ≤ i * 100 := by omega
      simp [visibleAt, hl]
    | succ k ih =>
      intro i h
      rw [pollTimedOut]
      by_cases hl : limit ≤ i * 100
      · simp [visibleAt, hl]
      · simp only [visibleAt, Bool.false_eq_true, if_false, if_neg hl]
        exact ih (i + 1) (by omega)
  intro i
  exact key (limit - i * 100) i le_rfl

/-- A result deposited before the limit elapses is seen by the polling loop:
no timeout is reported. -/
lemma pollTimedOut_visible_before (limit d : Nat) (hd : d * 100 < limit) :
    ∀ i, i ≤ d → pollTimedOut (some d) limit i = false := by
  have key : ∀ k i, d - i ≤ k → i ≤ d → pollTimedOut (some d) limit i = false := by
    intro k
    induction k with
    | zero =>
      intro i hk hi
      have : i = d := by omega
      subst this
      rw [pollTimedOut]
      simp [visibleAt]
    | succ k ih =>
      intro i hk hi
      by_cases hdi : d ≤ i
      · have : i = d := by omega
        subst this
        rw [pollTimedOut]
        simp [visibleAt]
      · rw [pollTimedOut]
        have hv : visibleAt (some d) i = false := by
          simp [visibleAt]; omega
        have hlim : ¬ limit ≤ i * 100 := by omega
        simp only [hv, Bool.false_eq_true, if_false, if_neg hlim]
        exact ih (i + 1) (by omega) (by omega)
  intro i hi
  exact key (d - i) i le_rfl hi

/-- The guarded runner only produces the result codes 1, 0 and -1. -/
lemma runTestGuardedM_code (flag : Bool) (n : Nat) (name : String)
    (b : BodyBehavior) (e : Bool) :
    (runTestGuardedM flag n name b e).1 = 1 ∨ (runTestGuardedM flag n name b e).1 = 0 ∨
      (runTestGuardedM flag n name b e).1 = -1 := by
  cases b <;> cases e <;> simp [runTestGuardedM]

/-- Emitting output does not change the counters. -/
lemma totalOf_emit (st : RunState) (s : String) : totalOf (st.emit s) = totalOf st := rfl

/-- The result ladder counts exactly one outcome for each of its codes. -/
lemma runResultLadder_total (st : RunState) (name : String) (code : Int) (expl : String)
    (h : code = 1 ∨ code = 0 ∨ code = -1) :
    totalOf (runResultLadder st name code expl) = totalOf st + 1 := by
  rcases h with h | h | h <;> subst h <;>
    simp [runResultLadder, totalOf, RunState.emit] <;> omega

/-- The timeout branch counts exactly one outcome net, whichever way the
expectation flag points. -/
lemma timeoutBranch_total (flag : Bool) (n : Nat) (name : String) (e : Bool)
    (tl : Int) (st : RunState) :
    totalOf (timeoutBranch flag n name e tl st) = totalOf st + 1 := by
  unfold timeoutBranch
  cases e <;> simp [totalOf, RunState.emit] <;> omega

/-- Every execution of one test adds exactly one to the counter sum. -/
lemma runTestM_total (flag debugger : Bool) (st : RunState) (n : Nat) (name : String)
    (tr : TestRun) (tl : Int) :
    totalOf (runTestM flag debugger st n name tr tl) = totalOf st + 1 := by
  unfold runTestM runTestUntimedM
  split
  · split
    · exact timeoutBranch_total _ _ _ _ _ _
    · dsimp only
      rw [runResultLadder_total _ _ _ _ (runTestGuardedM_code _ _ _ _ _), totalOf_emit]
  · dsimp only
    rw [runResultLadder_total _ _ _ _ (runTestGuardedM_code _ _ _ _ _), totalOf_emit]

/-- Membership in the `testsToRun` set after one insertion. -/
lemma mem_setInsert (s : List String) (y x : String) :
    x ∈ setInsert s y ↔ x ∈ s ∨ x = y := by
  unfold setInsert
  by_cases h : y ∈ s
  · rw [if_pos h]
    constructor
    · exact Or.inl
    · rintro (hx | hx)
      · exact hx
      · rw [hx]; exact h
  · rw [if_neg h]
    simp

/-- Membership after inserting a whole list. -/
lemma mem_foldl_setInsert (l : List String) :
    ∀ (acc : List String) (x : String),
      x ∈ List.foldl setInsert acc l ↔ x ∈ acc ∨ x ∈ l := by
  induction l with
  | nil => intro acc x; simp
  | cons a l ih =>
    intro acc x
    rw [List.foldl_cons, ih, mem_setInsert]
    simp
    tauto

/-- Inserting fresh, duplicate-free names appends them in order. -/
lemma foldl_setInsert_fresh (l : List String) :
    ∀ (acc : List String), l.Nodup → (∀ x ∈ l, x ∉ acc) →
      List.foldl setInsert acc l = acc ++ l := by
  induction l with
  | nil => intro acc _ _; simp
  | cons a l ih =>
    intro acc hnd hfresh
    rw [List.foldl_cons]
    have ha : a ∉ acc := hfresh a (by simp)
    have hins : setInsert acc a = acc ++ [a] := by unfold setInsert; rw [if_neg ha]
    rw [hins, ih (acc ++ [a]) hnd.of_cons]
    · simp
    · intro x hx
      simp only [List.mem_append, List.mem_singleton]
      rintro (hmem | heq)
      · exact hfresh x (by simp [hx]) hmem
      · exact (List.nodup_cons.mp hnd).1 (heq ▸ hx)

/-- Membership in the tests selected by the token loop: a test is selected
exactly when it was already in the accumulator or some token selects it —
by substring containment if the token has substring matches, otherwise by
the initialism rule. -/
lemma selectLoop_mem (names : List String) :
    ∀ (toks : List String) (acc : List String) (w : String) (x : String),
      x ∈ (selectLoop names acc w toks).1 ↔
        x ∈ acc ∨ ∃ tok ∈ toks,
          (substrSelect names tok ≠ [] ∧ x ∈ substrSelect names tok) ∨
          (substrSelect names tok = [] ∧ x ∈ initialismSelect names tok) := by
  intro toks
  induction toks with
  | nil => intro acc w x; simp [selectLoop]
  | cons tok toks ih =>
    intro acc w x
    unfold selectLoop
    by_cases hs : substrSelect names tok ≠ []
    · rw [if_pos hs, ih, mem_foldl_setInsert]
      simp only [List.mem_cons]
      constructor
      · rintro ((hacc | hsub) | ⟨t, ht, hcase⟩)
        · exact Or.inl hacc
        · exact Or.inr ⟨tok, Or.inl rfl, Or.inl ⟨hs, hsub⟩⟩
        · exact Or.inr ⟨t, Or.inr ht, hcase⟩
      · rintro (hacc | ⟨t, (rfl | ht), hcase⟩)
        · exact Or.inl (Or.inl hacc)
        · rcases hcase with ⟨_, hsub⟩ | ⟨hemp, _⟩
          · exact Or.inl (Or.inr hsub)
          · exact absurd hemp hs
        · exact Or.inr ⟨t, ht, hcase⟩
    · rw [if_neg hs]
      push_neg at hs
      by_cases hi : initialismSelect names tok ≠ []
      · rw [if_pos hi, ih, mem_foldl_setInsert]
        simp only [List.mem_cons]
        constructor
        · rintro ((hacc | hini) | ⟨t, ht, hcase⟩)
          · exact Or.inl hacc
          · exact Or.inr ⟨tok, Or.inl rfl, Or.inr ⟨hs, hini⟩⟩
          · exact Or.inr ⟨t, Or.inr ht, hcase⟩
        · rintro (hacc | ⟨t, (rfl | ht), hcase⟩)
          · exact Or.inl (Or.inl hacc)
          · rcases hcase with ⟨hne, _⟩ | ⟨_, hini⟩
            · exact absurd hs hne
            · exact Or.inl (Or.inr hini)
          · exact Or.inr ⟨t, ht, hcase⟩
      · rw [if_neg hi, ih]
        push_neg at hi
        simp only [List.mem_cons]
        constructor
        · rintro (hacc | ⟨t, ht, hcase⟩)
          · exact Or.inl hacc
          · exact Or.inr ⟨t, Or.inr ht, hcase⟩
        · rintro (hacc | ⟨t, (rfl | ht), hcase⟩)
          · exact Or.inl hacc
          · rcases hcase with ⟨hne, _⟩ | ⟨_, hini⟩
            · exact absurd hs hne
            · rw [hi] at hini; cases hini
          · exact Or.inr ⟨t, ht, hcase⟩

/-- The warnings accumulated by the token loop name exactly the tokens with
neither substring nor initialism matches, in order. -/
lemma selectLoop_warnings (names : List String) :
    ∀ (toks : List String) (acc : List String) (w : String),
      (selectLoop names acc w toks).2 =
        w ++ joinWarnings ((toks.filter (fun tok =>
            (substrSelect names tok).isEmpty && (initialismSelect names tok).isEmpty)).map
          (fun tok =>
            "# Warning: No matching test found for input specification " ++ tok ++ "\n")) := by
  intro toks
  induction toks with
  | nil =>
    intro acc w
    simp [selectLoop, joinWarnings, String.append_empty]
  | cons tok toks ih =>
    intro acc w
    unfold selectLoop
    by_cases hs : substrSelect names tok ≠ []
    · rw [if_pos hs, ih]
      have hfil : (substrSelect names tok).isEmpty = false := by
        rw [List.isEmpty_eq_false_iff_exists_mem]
        rcases List.exists_mem_of_ne_nil _ hs with ⟨y, hy⟩
        exact ⟨y, hy⟩
      simp [List.filter_cons, hfil]
    · rw [if_neg hs]
      push_neg at hs
      by_cases hi : initialismSelect names tok ≠ []
      · rw [if_pos hi, ih]
        have hfil : (initialismSelect names tok).isEmpty = false := by
          rw [List.isEmpty_eq_false_iff_exists_mem]
          rcases List.exists_mem_of_ne_nil _ hi with ⟨y, hy⟩
          exact ⟨y, hy⟩
        simp [List.filter_cons, hfil]
      · rw [if_neg hi, ih]
        push_neg at hi
        have hfil : ((substrSelect names tok).isEmpty &&
            (initialismSelect names tok).isEmpty) = true := by
          rw [hs, hi]; rfl
        simp [List.filter_cons, hfil, joinWarnings, String.append_assoc]

/-- `startsWithL` is exactly "is a prefix of". -/
lemma startsWithL_iff (pat : List Char) :
    ∀ (cs : List Char), startsWithL pat cs = true ↔ ∃ rest, cs = pat ++ rest := by
  induction pat with
  | nil => intro cs; simp [startsWithL]
  | cons p ps ih =>
    intro cs
    cases cs with
    | nil =>
      simp [startsWithL]
    | cons c rest =>
      rw [startsWithL]
      simp only [Bool.and_eq_true, decide_eq_true_eq, ih]
      constructor
      · rintro ⟨rfl, r, rfl⟩
        exact ⟨r, rfl⟩
      · rintro ⟨r, hr⟩
        simp only [List.cons_append, List.cons.injEq] at hr
        exact ⟨hr.1.symm, r, hr.2⟩

/-- `std::string::find` succeeds exactly on substring containment. -/
lemma findSub_isSome_iff (pat : List Char) :
    ∀ (hay : List Char),
      (findSub hay pat).isSome = true ↔ ∃ pre post, hay = pre ++ pat ++ post := by
  intro hay
  induction hay with
  | nil =>
    rw [findSub]
    by_cases h : startsWithL pat [] = true
    · rw [if_pos h]
      obtain ⟨rest, hr⟩ := (startsWithL_iff pat []).mp h
      have hpat : pat = [] := by
        cases pat with
        | nil => rfl
        | cons p ps => simp at hr
      subst hpat
      simp
    · rw [if_neg h]
      simp only [Option.isSome_none, Bool.false_eq_true, false_iff]
      rintro ⟨pre, post, hpp⟩
      have : pat = [] := by
        rcases List.append_eq_nil.mp (List.append_eq_nil.mp hpp.symm).1 with ⟨_, h2⟩
        exact h2
      rw [this] at h
      exact h (by simp [startsWithL])
  | cons a rest ih =>
    rw [findSub]
    by_cases h : startsWithL pat (a :: rest) = true
    · rw [if_pos h]
      obtain ⟨r, hr⟩ := (startsWithL_iff pat _).mp h
      simp only [Option.isSome_some, true_iff]
      exact ⟨[], r, by simpa using hr⟩
    · rw [if_neg h]
      have hmap : (Option.map (fun x => x + 1) (findSub rest pat)).isSome =
          (findSub rest pat).isSome := by
        cases findSub rest pat <;> rfl
      rw [hmap, ih]
      constructor
      · rintro ⟨pre, post, hpp⟩
        exact ⟨a :: pre, post, by simp [hpp]⟩
      · rintro ⟨pre, post, hpp⟩
        cases pre with
        | nil =>
          exfalso
          apply h
          rw [startsWithL_iff]
          exact ⟨post, by simpa using hpp⟩
        | cons b pre2 =>
          simp only [List.cons_append, List.cons.injEq] at hpp
          exact ⟨pre2, post, hpp.2⟩

/-- Each run-loop iteration leaves the counter sum one higher. -/
lemma runSelected_total (flag debugger : Bool) (reg : List (String × Int))
    (env : String → TestRun) :
    ∀ (sel : List String) (st : RunState) (n : Nat),
      totalOf (runSelected flag debugger reg env st n sel) = totalOf st + sel.length := by
  intro sel
  induction sel with
  | nil => intro st n; simp [runSelected]
  | cons name rest ih =>
    intro st n
    rw [runSelected, ih, runTestM_total]
    simp only [List.length_cons]
    omega

/-- Comma-join of a list with a nonempty tail. -/
lemma commaJoin_cons (s : String) (l : List String) (h : l ≠ []) :
    commaJoin (s :: l) = s ++ ", " ++ commaJoin l := by
  cases l with
  | nil => cases h rfl
  | cons t ts => rfl

/-- One unfolding step of the element loop on a nonempty list whose `n`
argument equals its length. -/
lemma renderElems_cons (e : RValue) (rest : List RValue) (c : Nat) :
    renderElems (e :: rest) (rest.length + 1) c =
      if c + 1 ≥ 10 ∧ rest.length > 0
      then ((getStringRepr e ++ (if rest.length + 1 > 1 then ", " else "")) ++ "...",
        rest.length)
      else ((getStringRepr e ++ (if rest.length + 1 > 1 then ", " else ""))
          ++ (renderElems rest rest.length (c + 1)).1,
        (renderElems rest rest.length (c + 1)).2) := by
  rw [renderElems]
  rw [if_neg (Nat.succ_ne_zero rest.length)]
  simp only [Nat.add_sub_cancel]

/-- Closed form of the container element loop: starting with `count = c`
displayed elements (`c < 10`), either everything fits in the remaining
display budget, or exactly the budget is displayed (each element followed by
a separator, then the ellipsis) and the rest is reported omitted. -/
lemma renderElems_closed (es : List RValue) :
    ∀ (c : Nat), c < 10 →
      renderElems es es.length c =
        if es.length ≤ 10 - c then (commaJoin (es.map getStringRepr), 0)
        else (commaJoin ((es.take (10 - c)).map getStringRepr) ++ ", ...",
          es.length - (10 - c)) := by
  induction es with
  | nil =>
    intro c hc
    rw [if_pos (by simp)]
    simp [renderElems, commaJoin]
  | cons e rest ih =>
    intro c hc
    rw [show (e :: rest).length = rest.length + 1 from rfl, renderElems_cons]
    by_cases hbreak : c + 1 ≥ 10 ∧ rest.length > 0
    · -- hit the display cap with elements remaining
      have hc9 : c = 9 := by omega
      subst hc9
      rw [if_pos hbreak, if_pos (by omega), if_neg (by omega)]
      have htake : (10 - 9 : Nat) = 1 := by omega
      rw [htake]
      rw [show (e :: rest).take 1 = [e] from rfl]
      rw [show commaJoin (([e]).map getStringRepr) = getStringRepr e from rfl]
      rw [String.append_assoc]
      rfl
    · rw [if_neg hbreak]
      by_cases hrest : rest = []
      · -- last element of the container
        subst hrest
        rw [if_neg (by simp)]
        rw [show renderElems [] (([] : List RValue)).length (c + 1) = ("", 0) from
          by simp [renderElems]]
        rw [if_pos (by simp only [List.length_cons, List.length_nil]; omega)]
        rw [String.append_empty, String.append_empty]
        rfl
      · -- more elements, cap not yet reached
        have hpos : 0 < rest.length := List.length_pos.mpr hrest
        have hc1 : c + 1 < 10 := by
          rcases Nat.lt_or_ge (c + 1) 10 with h | h
          · exact h
          · exact absurd ⟨h, hpos⟩ hbreak
        rw [if_pos (by omega), ih (c + 1) hc1]
        have h9 : 10 - (c + 1) = 9 - c := by omega
        rw [h9]
        by_cases hfit : rest.length ≤ 9 - c
        · rw [if_pos hfit, if_pos (by omega)]
          have hmapne : rest.map getStringRepr ≠ [] := by
            simpa using hrest
          rw [show (e :: rest).map getStringRepr =
            getStringRepr e :: rest.map getStringRepr from rfl]
          rw [commaJoin_cons _ _ hmapne]
        · rw [if_neg hfit, if_neg (by omega)]
          have h10 : 10 - c = (9 - c) + 1 := by omega
          rw [h10]
          rw [List.take_succ_cons]
          rw [show (e :: rest.take (9 - c)).map getStringRepr =
            getStringRepr e :: (rest.take (9 - c)).map getStringRepr from rfl]
          have htakene : (rest.take (9 - c)).map getStringRepr ≠ [] := by
            have h9c : (9 - c) ≠ 0 := by omega
            have hne2 : rest.take (9 - c) ≠ [] := by
              rw [Ne, List.take_eq_nil_iff]
              push_neg
              exact ⟨h9c, hrest⟩
            simpa using hne2
          rw [commaJoin_cons _ _ htakene]
          simp only [Prod.mk.injEq]
          refine ⟨?_, by omega⟩
          rw [← String.append_assoc]

/-!
Claim theorems follow.  Each claim of the specification audit has exactly one
theorem below.
-/

/-- C1: the Execution Engine applies the expectation-inversion rule uniformly
to the underlying result: with the expectation flag clear the final outcome
equals the underlying result (Success, Failure, Error or Timeout); with it
set, an underlying Success is classified Failure and an underlying Failure,
Error or Timeout is classified Success. -/
theorem expectation_inversion_uniform :
    ∀ (flag : Bool) (n : Nat) (name : String) (r : Option BodyBehavior) (e : Bool),
      runOutcome flag n name r e = specInversion (underlyingOf r) e := by
  intro flag n name r e
  rcases r with _ | b
  · cases e <;> rfl
  · cases b <;> cases e <;> rfl

/-- C7: `isApproximately(target, delta)` passes on `x` exactly when
`target - delta ≤ x ≤ target + delta`, boundaries included. -/
theorem approximately_inclusive_range :
    ∀ (x target delta : ℚ),
      ((approximatelyEqualTo target delta) x).result = true ↔
        target - delta ≤ x ∧ x ≤ target + delta := by
  intro x t d
  simp only [approximatelyEqualTo]
  by_cases h : x < t - d ∨ x > t + d
  · rw [if_pos h]
    constructor
    · intro hres; exact absurd hres (by simp)
    · rintro ⟨h1, h2⟩
      rcases h with h | h <;> linarith
  · rw [if_neg h]
    push_neg at h
    constructor
    · intro _; exact ⟨h.1, h.2⟩
    · intro _; rfl

/-- C8: negating a matcher inverts its verdict and swaps its pass/fail
narratives, and double negation restores the original evaluation entirely. -/
theorem not_matcher_inverts :
    ∀ {α : Type} (m : Matcher α) (v : α),
      (notMatcher m v).result = !(m v).result ∧
      (notMatcher m v).passExplanation = (m v).failExplanation ∧
      (notMatcher m v).failExplanation = (m v).passExplanation ∧
      notMatcher (notMatcher m) v = m v := by
  intro α m v
  refine ⟨rfl, rfl, rfl, ?_⟩
  show AssertionResult.mk (!!(m v).result) (m v).passExplanation (m v).failExplanation = m v
  rw [Bool.not_not]

/-- C10: on a subject shorter than the expected string, the begins-with and
ends-with matchers return a failing result, and in every case the element-wise
comparison performs no out-of-range character access (the evaluation never
returns the out-of-range marker `none`) because the length comparison
short-circuits it. -/
theorem string_matchers_no_oob :
    ∀ (e r : List Char),
      (stringEndsWithEval r e).isSome ∧ (stringBeginsWithEval r e).isSome ∧
      (e.length < r.length →
        (∃ res, stringEndsWithEval r e = some res ∧ res.result = false) ∧
        (∃ res, stringBeginsWithEval r e = some res ∧ res.result = false)) := by
  intro e r
  by_cases h : r.length ≤ e.length
  · have hEnds : (equalRangeChecked r e (e.length - r.length)).isSome :=
      equalRangeChecked_isSome r e _ (by omega)
    have hBegins : (equalRangeChecked r e 0).isSome :=
      equalRangeChecked_isSome r e 0 (by omega)
    obtain ⟨b1, hb1⟩ := Option.isSome_iff_exists.mp hEnds
    obtain ⟨b2, hb2⟩ := Option.isSome_iff_exists.mp hBegins
    refine ⟨?_, ?_, ?_⟩
    · simp [stringEndsWithEval, if_pos h, hb1]
    · simp [stringBeginsWithEval, if_pos h, hb2]
    · intro hlt; omega
  · have h2 : ¬ r.length ≤ e.length := h
    refine ⟨?_, ?_, ?_⟩
    · simp [stringEndsWithEval, if_neg h2]
    · simp [stringBeginsWithEval, if_neg h2]
    · intro _
      have hEndsVal : stringEndsWithEval r e = some (AssertionResult.mk false
          (getStringReprStr (String.mk e) ++ " ends with " ++ getStringReprStr (String.mk r))
          (getStringReprStr (String.mk e) ++ " does not end with "
            ++ getStringReprStr (String.mk r))) := by
        simp [stringEndsWithEval, if_neg h2]
      have hBeginsVal : stringBeginsWithEval r e = some (AssertionResult.mk false
          (getStringReprStr (String.mk e) ++ " begins with " ++ getStringReprStr (String.mk r))
          (getStringReprStr (String.mk e) ++ " does not begin with "
            ++ getStringReprStr (String.mk r))) := by
        simp [stringBeginsWithEval, if_neg h2]
      exact ⟨⟨_, hEndsVal, rfl⟩, ⟨_, hBeginsVal, rfl⟩⟩

/-- Witness for C10 at subject `"a"` and expected string `"ab"`. -/
theorem string_matchers_no_oob_witness :
    (∃ res, stringEndsWithEval ([Char.ofNat 97, Char.ofNat 98]) ([Char.ofNat 97]) = some res ∧
      res.result = false) ∧
    (∃ res, stringBeginsWithEval ([Char.ofNat 97, Char.ofNat 98]) ([Char.ofNat 97]) = some res ∧
      res.result = false) :=
  (string_matchers_no_oob ([Char.ofNat 97]) ([Char.ofNat 97, Char.ofNat 98])).2.2 (by decide)

/-- C9: every completed test execution increases the counter sum
`numSuccesses + numFailures + numErrors` by exactly one net, on every
classification path; in particular the expected-to-fail timeout path, which
first increments the failure counter, compensates by incrementing successes
and decrementing failures. -/
theorem counters_sum_increases_by_one :
    ∀ (flag debugger : Bool) (st : RunState) (n : Nat) (name : String)
      (tr : TestRun) (tl : Int),
      totalOf (runTestM flag debugger st n name tr tl) = totalOf st + 1 ∧
      (0 < tl → debugger = false → tr.depositAt = none → tr.setsExpect = true →
        (runTestM flag debugger st n name tr tl).numSuccesses = st.numSuccesses + 1 ∧
        (runTestM flag debugger st n name tr tl).numFailures = st.numFailures) := by
  intro flag debugger st n name tr tl
  refine ⟨runTestM_total flag debugger st n name tr tl, ?_⟩
  intro htl hdbg hdep hexp
  subst hdbg
  have hcond : 0 < tl ∧ ¬ (false : Bool) = true := ⟨htl, by simp⟩
  have hpoll : pollTimedOut tr.depositAt tl.toNat 0 = true := by
    rw [hdep]; exact pollTimedOut_none tl.toNat 0
  unfold runTestM
  rw [if_pos hcond, if_pos hpoll]
  unfold timeoutBranch
  rw [hexp]
  simp [RunState.emit]

/-- Witness for C9 at a timed, expected-to-fail test that never deposits a
result. -/
theorem counters_sum_increases_by_one_witness :
    (runTestM true false RunState.initial 1 ("t")
        ⟨BodyBehavior.normalReturn, true, none⟩ 50).numSuccesses =
      RunState.initial.numSuccesses + 1 ∧
    (runTestM true false RunState.initial 1 ("t")
        ⟨BodyBehavior.normalReturn, true, none⟩ 50).numFailures =
      RunState.initial.numFailures :=
  (counters_sum_increases_by_one true false RunState.initial 1 ("t")
    ⟨BodyBehavior.normalReturn, true, none⟩ 50).2 (by decide) rfl rfl rfl

/-- C2: a test with a positive time limit, no debugger, and a body that
never deposits a result is classified Timeout once the limit elapses: the
polling loop finishes with a timeout even though the body never returns, the
failure counter is incremented and the name appended to the failed-test list
(no success or error is counted), while a result deposited at a polling
check inside the limit is never classified Timeout ("not before").  The
model contains no operation against the worker: it is only abandoned. -/
theorem timeout_detection :
    ∀ (flag : Bool) (st : RunState) (n : Nat) (name : String) (tr : TestRun) (tl : Int),
      0 < tl → tr.depositAt = none → tr.setsExpect = false →
      pollTimedOut tr.depositAt tl.toNat 0 = true ∧
      (runTestM flag false st n name tr tl).numFailures = st.numFailures + 1 ∧
      (runTestM flag false st n name tr tl).failedTests = st.failedTests ++ [name] ∧
      (runTestM flag false st n name tr tl).numSuccesses = st.numSuccesses ∧
      (runTestM flag false st n name tr tl).numErrors = st.numErrors ∧
      (∀ d : Nat, d * 100 < tl.toNat → pollTimedOut (some d) tl.toNat 0 = false) := by
  intro flag st n name tr tl htl hdep hexp
  have hpoll : pollTimedOut tr.depositAt tl.toNat 0 = true := by
    rw [hdep]; exact pollTimedOut_none tl.toNat 0
  have hcond : 0 < tl ∧ ¬ (false : Bool) = true := ⟨htl, by simp⟩
  have hrun : runTestM flag false st n name tr tl =
      timeoutBranch flag n name tr.setsExpect tl st := by
    unfold runTestM
    rw [if_pos hcond, if_pos hpoll]
  refine ⟨hpoll, ?_, ?_, ?_, ?_, ?_⟩
  · rw [hrun]; unfold timeoutBranch; rw [hexp]; simp [RunState.emit]
  · rw [hrun]; unfold timeoutBranch; rw [hexp]; simp [RunState.emit]
  · rw [hrun]; unfold timeoutBranch; rw [hexp]; simp [RunState.emit]
  · rw [hrun]; unfold timeoutBranch; rw [hexp]; simp [RunState.emit]
  · intro d hd
    exact pollTimedOut_visible_before tl.toNat d hd 0 (Nat.zero_le d)

/-- Witness for C2 at a 100 ms limit and a body running forever. -/
theorem timeout_detection_witness :
    pollTimedOut none ((100 : Int)).toNat 0 = true ∧
    (runTestM true false RunState.initial 1 ("loop")
        ⟨BodyBehavior.normalReturn, false, none⟩ 100).numFailures =
      RunState.initial.numFailures + 1 ∧
    (runTestM true false RunState.initial 1 ("loop")
        ⟨BodyBehavior.normalReturn, false, none⟩ 100).failedTests =
      RunState.initial.failedTests ++ [("loop")] :=
  have h := timeout_detection true RunState.initial 1 ("loop")
    ⟨BodyBehavior.normalReturn, false, none⟩ 100 (by decide) rfl rfl
  ⟨h.1, h.2.1, h.2.2.1⟩

/-- C3: with zero filter tokens, or when the union of substring and
initialism matches over all tokens is empty, the driver selects every
registered test exactly once (the selection equals the duplicate-free
registry name list) and the final counter sum equals the registry size. -/
theorem no_filter_runs_all :
    ∀ (flag debugger : Bool) (reg : List (String × Int)) (env : String → TestRun)
      (toks : List String),
      (reg.map Prod.fst).Nodup →
      (toks = [] ∨ (selectLoop (reg.map Prod.fst) [] "" toks).1 = []) →
      selectedTests reg toks = reg.map Prod.fst ∧
      totalOf (runTestsM flag debugger reg env toks) = reg.length := by
  intro flag debugger reg env toks hnd hsel
  have hfill : (selectLoop (reg.map Prod.fst) [] "" toks).1 = [] := by
    rcases hsel with rfl | h
    · rfl
    · exact h
  have hselected : selectedTests reg toks = reg.map Prod.fst := by
    have hdef : selectedTests reg toks =
        (if (selectLoop (reg.map Prod.fst) [] "" toks).1 = []
         then List.foldl setInsert [] (reg.map Prod.fst)
         else (selectLoop (reg.map Prod.fst) [] "" toks).1) := rfl
    rw [hdef, if_pos hfill,
      foldl_setInsert_fresh _ _ hnd (by intro x _ hx; cases hx)]
    exact List.nil_append _
  refine ⟨hselected, ?_⟩
  have hrun : runTestsM flag debugger reg env toks =
      runSelected flag debugger reg env
        ((RunState.initial.emit
            (msgOut ("1.." ++ toString (selectedTests reg toks).length))).emit
          (msgOut (selectLoop (reg.map Prod.fst) [] "" toks).2)) 1
        (selectedTests reg toks) := rfl
  rw [hrun, runSelected_total, hselected]
  simp [totalOf, RunState.emit, RunState.initial, List.length_map]

/-- Witness for C3 at a two-test registry and no filter tokens. -/
theorem no_filter_runs_all_witness :
    selectedTests ([(("a" : String), (0 : Int)), (("b" : String), (0 : Int))]) [] =
      ([(("a" : String), (0 : Int)), (("b" : String), (0 : Int))]).map Prod.fst ∧
    totalOf (runTestsM true false
        ([(("a" : String), (0 : Int)), (("b" : String), (0 : Int))]) exampleEnv []) = 2 :=
  no_filter_runs_all true false
    ([(("a" : String), (0 : Int)), (("b" : String), (0 : Int))]) exampleEnv []
    (by decide) (Or.inl rfl)

/-- C4: for each filter token the driver selects by substring containment
first, falls back to exact initialism equality only when no name contains
the token, and otherwise records a non-fatal warning naming the token while
continuing with the remaining tokens.  The initialism of a name is its first
character followed by every later character in `'A'..'Z'`, and substring
selection is exactly substring containment. -/
theorem filter_token_selection :
    ∀ (names toks : List String),
      (∀ x, x ∈ (selectLoop names [] "" toks).1 ↔
        ∃ tok ∈ toks,
          (substrSelect names tok ≠ [] ∧ x ∈ substrSelect names tok) ∨
          (substrSelect names tok = [] ∧ x ∈ initialismSelect names tok)) ∧
      ((selectLoop names [] "" toks).2 =
        joinWarnings ((toks.filter (fun tok =>
            (substrSelect names tok).isEmpty && (initialismSelect names tok).isEmpty)).map
          (fun tok =>
            "# Warning: No matching test found for input specification " ++ tok ++ "\n"))) ∧
      (∀ nm tok, nm ∈ substrSelect names tok ↔
        nm ∈ names ∧ ∃ pre post, nm.toList = pre ++ tok.toList ++ post) ∧
      (∀ nm tok, nm ∈ initialismSelect names tok ↔
        nm ∈ names ∧ initialism nm.toList = tok.toList) := by
  intro names toks
  refine ⟨?_, ?_, ?_, ?_⟩
  · intro x
    rw [selectLoop_mem]
    simp
  · rw [selectLoop_warnings]
    exact String.empty_append _ ▸ rfl
  · intro nm tok
    unfold substrSelect
    rw [List.mem_filter]
    rw [← findSub_isSome_iff]
  · intro nm tok
    unfold initialismSelect
    rw [List.mem_filter]
    simp

/-- C5: `getStringRepr` resolves by capability priority — streamable values
through textual conversion with strings double-quoted, characters
single-quoted and booleans as the words true/false; iterable values as a
bracketed comma-separated list of recursively rendered elements showing at
most 10 elements, with a marker stating how many further elements were
omitted; everything else as the placeholder `???`. -/
theorem render_capability_dispatch :
    (∀ s, getStringRepr (.str s) = "\"" ++ s ++ "\"") ∧
    (∀ c, getStringRepr (.chr c) = String.mk ([quoteChar, c, quoteChar])) ∧
    (getStringRepr (.boolVal true) = "true") ∧
    (getStringRepr (.boolVal false) = "false") ∧
    (getStringRepr .unprintable = "???") ∧
    (∀ n, getStringRepr (.intVal n) = toString n) ∧
    (∀ es, es.length ≤ 10 →
      getStringRepr (.container es) =
        "[" ++ commaJoin (es.map getStringRepr) ++ "]") ∧
    (∀ es, 10 < es.length →
      getStringRepr (.container es) =
        "[" ++ commaJoin ((es.take 10).map getStringRepr) ++ ", ..."
          ++ ("... (" ++ toString (es.length - 10)
            ++ " additional elements) ...") ++ "]") := by
  refine ⟨fun s => by rw [getStringRepr], fun c => by rw [getStringRepr],
    by simp [getStringRepr], by simp [getStringRepr], by rw [getStringRepr],
    fun n => by rw [getStringRepr], ?_, ?_⟩
  · intro es h
    rw [getStringRepr]
    rw [renderElems_closed es 0 (by omega)]
    simp only [Nat.sub_zero]
    rw [if_pos h]
    rw [if_neg (by omega)]
    rw [String.append_empty]
  · intro es h
    rw [getStringRepr]
    rw [renderElems_closed es 0 (by omega)]
    simp only [Nat.sub_zero]
    rw [if_neg (by omega)]
    rw [if_pos (by omega)]
    simp only [String.append_assoc]

/-- Witness for C5 at a 2-element and a 12-element container. -/
theorem render_capability_dispatch_witness :
    (getStringRepr (.container ([RValue.intVal 1, RValue.intVal 2])) =
      "[" ++ commaJoin (([RValue.intVal 1, RValue.intVal 2]).map getStringRepr) ++ "]") ∧
    (getStringRepr (.container (List.replicate 12 (RValue.intVal 0))) =
      "[" ++ commaJoin (((List.replicate 12 (RValue.intVal 0)).take 10).map getStringRepr)
        ++ ", ..."
        ++ ("... (" ++ toString ((List.replicate 12 (RValue.intVal 0)).length - 10)
          ++ " additional elements) ...") ++ "]") :=
  ⟨render_capability_dispatch.2.2.2.2.2.2.1 ([RValue.intVal 1, RValue.intVal 2]) (by decide),
   render_capability_dispatch.2.2.2.2.2.2.2 (List.replicate 12 (RValue.intVal 0)) (by decide)⟩

/-- `splitLines` always yields at least one line. -/
lemma splitLines_ne_nil : ∀ (cs : List Char), splitLines cs ≠ [] := by
  intro cs
  cases cs with
  | nil => simp [splitLines]
  | cons c rest =>
    rw [splitLines]
    by_cases h : c = '\n'
    · simp [h]
    · rw [if_neg h]
      cases hsp : splitLines rest with
      | nil => simp
      | cons l ls => simp

/-- Splitting a list headed by a newline. -/
lemma splitLines_cons_nl (rest : List Char) :
    splitLines ('\n' :: rest) = [] :: splitLines rest := by
  rw [splitLines, if_pos rfl]

/-- Splitting a list headed by an ordinary character. -/
lemma splitLines_cons_ne (c : Char) (rest : List Char) (hc : ¬ c = '\n') :
    splitLines (c :: rest) = (c :: firstLineOf rest) :: (splitLines rest).tail := by
  rw [splitLines, if_neg hc]
  cases hs : splitLines rest with
  | nil => exact absurd hs (splitLines_ne_nil rest)
  | cons l ls => simp [firstLineOf, hs]

/-- `splitLines` destructured into head and tail. -/
lemma splitLines_destruct (cs : List Char) :
    splitLines cs = firstLineOf cs :: (splitLines cs).tail := by
  cases hs : splitLines cs with
  | nil => exact absurd hs (splitLines_ne_nil cs)
  | cons l ls => simp [firstLineOf, hs]

/-- First character test for the space of the comment marker. -/
lemma take1_eq_space (c : Char) (l : List Char) :
    ((c :: l).take 1 = ([' '])) ↔ c = ' ' := by
  simp

/-- Two-character test for the comment marker on a nonempty list. -/
lemma take2_eq_mark (c : Char) (l : List Char) :
    ((c :: l).take 2 = commentMark) ↔ (c = '#' ∧ l.take 1 = ([' '])) := by
  cases l <;> simp [commentMark]

/-- The first line of `cs` starts with a space exactly when `cs` does. -/
lemma firstLine_take1_space (cs : List Char) :
    (firstLineOf cs).take 1 = ([' ']) ↔ cs.take 1 = ([' ']) := by
  cases cs with
  | nil => rfl
  | cons c rest =>
    by_cases hc : c = '\n'
    · subst hc
      rw [show firstLineOf ('\n' :: rest) = [] from by
        simp [firstLineOf, splitLines_cons_nl]]
      rw [take1_eq_space]
      simp
    · rw [show firstLineOf (c :: rest) = c :: firstLineOf rest from by
        simp [firstLineOf, splitLines_cons_ne c rest hc]]
      rw [take1_eq_space, take1_eq_space]

/-- The first line of `cs` starts with the comment marker exactly when `cs`
does (the marker contains no newline). -/
lemma firstLine_take2_mark (cs : List Char) :
    (firstLineOf cs).take 2 = commentMark ↔ cs.take 2 = commentMark := by
  cases cs with
  | nil => rfl
  | cons c rest =>
    by_cases hc : c = '\n'
    · subst hc
      rw [show firstLineOf ('\n' :: rest) = [] from by
        simp [firstLineOf, splitLines_cons_nl]]
      rw [take2_eq_mark]
      constructor
      · intro hh; cases hh
      · rintro ⟨hh, -⟩; cases hh
    · rw [show firstLineOf (c :: rest) = c :: firstLineOf rest from by
        simp [firstLineOf, splitLines_cons_ne c rest hc]]
      rw [take2_eq_mark, take2_eq_mark, firstLine_take1_space rest]

/-- Prepending the (newline-free) comment marker extends the first line. -/
lemma splitLines_mark_append (y : List Char) :
    splitLines (commentMark ++ y) = (commentMark ++ firstLineOf y) :: (splitLines y).tail := by
  show splitLines ('#' :: ' ' :: y) = _
  rw [splitLines_cons_ne '#' (' ' :: y) (by decide),
    splitLines_cons_ne ' ' y (by decide)]
  rw [show firstLineOf (' ' :: y) = ' ' :: firstLineOf y from by
    simp [firstLineOf, splitLines_cons_ne ' ' y (by decide)]]
  rfl

/-- `commentBody` marks every line after the first. -/
lemma commentBody_lines (cs : List Char) :
    splitLines (commentBody cs) =
      firstLineOf cs :: ((splitLines cs).tail).map ensureMark := by
  induction cs with
  | nil => simp [commentBody, splitLines, firstLineOf]
  | cons c rest ih =>
    have hfirstB : firstLineOf (commentBody rest) = firstLineOf rest := by
      simp [firstLineOf, ih]
    have htailB : (splitLines (commentBody rest)).tail =
        ((splitLines rest).tail).map ensureMark := by
      rw [ih]; rfl
    by_cases hc : c = '\n'
    · subst hc
      rw [commentBody, if_pos rfl]
      rw [splitLines_cons_nl]
      rw [show firstLineOf ('\n' :: rest) = [] from by
        simp [firstLineOf, splitLines_cons_nl]]
      rw [show (splitLines ('\n' :: rest)).tail = splitLines rest from by
        rw [splitLines_cons_nl]; rfl]
      rw [splitLines_destruct rest, List.map_cons]
      by_cases hm : rest.take 2 = commentMark
      · rw [if_pos hm, List.nil_append, ih]
        have hfm : (firstLineOf rest).take 2 = commentMark :=
          (firstLine_take2_mark rest).mpr hm
        rw [show ensureMark (firstLineOf rest) = firstLineOf rest from by
          rw [ensureMark, if_pos hfm]]
      · rw [if_neg hm]
        rw [splitLines_mark_append (commentBody rest)]
        have hfm : ¬ (firstLineOf rest).take 2 = commentMark := fun hh =>
          hm ((firstLine_take2_mark rest).mp hh)
        rw [show ensureMark (firstLineOf rest) = commentMark ++ firstLineOf rest from by
          rw [ensureMark, if_neg hfm]]
        rw [hfirstB, htailB]
    · rw [commentBody, if_neg hc]
      rw [splitLines_cons_ne c (commentBody rest) hc]
      rw [hfirstB, htailB]
      rw [show firstLineOf (c :: rest) = c :: firstLineOf rest from by
        simp [firstLineOf, splitLines_cons_ne c rest hc]]
      rw [show (splitLines (c :: rest)).tail = (splitLines rest).tail from by
        rw [splitLines_cons_ne c rest hc]; rfl]

/-- `msgComment` marks every line, the first included. -/
lemma msgCommentL_lines (cs : List Char) :
    splitLines (msgCommentL cs) = (splitLines cs).map ensureMark := by
  have hfirstB : firstLineOf (commentBody cs) = firstLineOf cs := by
    simp [firstLineOf, commentBody_lines cs]
  have htailB : (splitLines (commentBody cs)).tail =
      ((splitLines cs).tail).map ensureMark := by
    rw [commentBody_lines cs]; rfl
  unfold msgCommentL
  conv_rhs => rw [splitLines_destruct cs, List.map_cons]
  by_cases hm : cs.take 2 = commentMark
  · rw [if_pos hm, List.nil_append, commentBody_lines]
    have hfm : (firstLineOf cs).take 2 = commentMark :=
      (firstLine_take2_mark cs).mpr hm
    rw [show ensureMark (firstLineOf cs) = firstLineOf cs from by
      rw [ensureMark, if_pos hfm]]
  · rw [if_neg hm]
    rw [splitLines_mark_append (commentBody cs)]
    have hfm : ¬ (firstLineOf cs).take 2 = commentMark := fun hh =>
      hm ((firstLine_take2_mark cs).mp hh)
    rw [show ensureMark (firstLineOf cs) = commentMark ++ firstLineOf cs from by
      rw [ensureMark, if_neg hfm]]
    rw [hfirstB, htailB]

/-- The marked form of any line starts with the comment marker. -/
lemma ensureMark_take2 (l : List Char) : (ensureMark l).take 2 = commentMark := by
  unfold ensureMark
  by_cases h : l.take 2 = commentMark
  · rw [if_pos h]; exact h
  · rw [if_neg h]; rfl

/-- Decimal digit characters are never a newline. -/
lemma digitChar_ne_newline : ∀ (n : Nat), Nat.digitChar n ≠ '\n'
  | 0 => by decide
  | 1 => by decide
  | 2 => by decide
  | 3 => by decide
  | 4 => by decide
  | 5 => by decide
  | 6 => by decide
  | 7 => by decide
  | 8 => by decide
  | 9 => by decide
  | 10 => by decide
  | 11 => by decide
  | 12 => by decide
  | 13 => by decide
  | 14 => by decide
  | 15 => by decide
  | (n + 16) => by show ('*' : Char) ≠ '\n'; decide

/-- `Nat.toDigitsCore` never produces a newline. -/
lemma toDigitsCore_ne_newline :
    ∀ (fuel n : Nat) (acc : List Char), (∀ c ∈ acc, c ≠ '\n') →
      ∀ c ∈ Nat.toDigitsCore 10 fuel n acc, c ≠ '\n' := by
  intro fuel
  induction fuel with
  | zero =>
    intro n acc hacc c hc
    rw [Nat.toDigitsCore] at hc
    exact hacc c hc
  | succ fuel ih =>
    intro n acc hacc c hc
    rw [Nat.toDigitsCore] at hc
    by_cases h : n / 10 = 0
    · rw [if_pos h] at hc
      rcases List.mem_cons.mp hc with rfl | hmem
      · exact digitChar_ne_newline _
      · exact hacc _ hmem
    · rw [if_neg h] at hc
      refine ih (n / 10) _ ?_ c hc
      intro c2 hc2
      rcases List.mem_cons.mp hc2 with rfl | hmem
      · exact digitChar_ne_newline _
      · exact hacc _ hmem

/-- The decimal rendering of a number contains no newline. -/
lemma natRepr_ne_newline (n : Nat) : ∀ c ∈ (Nat.repr n).toList, c ≠ '\n' := by
  intro c hc
  have hrw : (Nat.repr n).toList = Nat.toDigitsCore 10 (n + 1) n [] := rfl
  rw [hrw] at hc
  exact toDigitsCore_ne_newline (n + 1) n [] (by intro c2 hc2; cases hc2) c hc

/-- `msg` appends a newline to a nonempty message without one. -/
lemma msgOut_eq_append_nl (s : String) (hne : s.toList ≠ [])
    (h : ∀ c ∈ s.toList, c ≠ '\n') : msgOut s = s ++ "\n" := by
  have h1 : s.length > 0 := by
    have hl : s.length = s.toList.length := rfl
    rw [hl]
    exact List.length_pos.mpr hne
  have h2 : s.toList.getLast? ≠ some '\n' := by
    intro hlast
    have hmem : '\n' ∈ s.toList := by
      cases hs : s.toList with
      | nil => rw [hs] at hlast; cases hlast
      | cons a l =>
        rw [hs] at hlast
        have hgl := List.getLast?_eq_getLast (a :: l) (by simp)
        rw [hgl] at hlast
        have hg := Option.some.inj hlast
        rw [← hg]
        exact List.getLast_mem _
    exact h '\n' hmem rfl
  unfold msgOut
  rw [if_pos ⟨h1, h2⟩]

/-- The TAP plan line has no newline before `msg` adds one. -/
lemma msgOut_plan (n : Nat) :
    msgOut ("1.." ++ toString n) = ("1.." ++ toString n) ++ "\n" := by
  apply msgOut_eq_append_nl
  · have hrw : (("1.." ++ toString n)).toList = ('1' :: '.' :: '.' :: (Nat.repr n).toList) := rfl
    rw [hrw]
    simp
  · intro c hc
    have hrw : (("1.." ++ toString n)).toList = ('1' :: '.' :: '.' :: (Nat.repr n).toList) := rfl
    rw [hrw] at hc
    rcases List.mem_cons.mp hc with rfl | hc
    · decide
    rcases List.mem_cons.mp hc with rfl | hc
    · decide
    rcases List.mem_cons.mp hc with rfl | hc
    · decide
    exact natRepr_ne_newline n c hc

/-- The result ladder only appends to the output stream. -/
lemma runResultLadder_output (st : RunState) (name : String) (code : Int) (expl : String) :
    ∃ s, (runResultLadder st name code expl).output = st.output ++ s := by
  unfold runResultLadder
  by_cases h1 : code = 1
  · rw [if_pos h1]; exact ⟨"", (String.append_empty _).symm⟩
  · rw [if_neg h1]
    by_cases h0 : code = 0
    · rw [if_pos h0]; exact ⟨_, rfl⟩
    · rw [if_neg h0]
      by_cases hm : code = -1
      · rw [if_pos hm]; exact ⟨_, rfl⟩
      · rw [if_neg hm]; exact ⟨"", (String.append_empty _).symm⟩

/-- The timeout branch only appends to the output stream. -/
lemma timeoutBranch_output (flag : Bool) (n : Nat) (name : String) (e : Bool)
    (tl : Int) (st : RunState) :
    ∃ s, (timeoutBranch flag n name e tl st).output = st.output ++ s := by
  unfold timeoutBranch
  by_cases he : ¬ e
  · rw [if_pos he]; exact ⟨_, rfl⟩
  · rw [if_neg he]; exact ⟨_, rfl⟩

/-- Running one test only appends to the output stream. -/
lemma runTestM_output (flag debugger : Bool) (st : RunState) (n : Nat) (name : String)
    (tr : TestRun) (tl : Int) :
    ∃ s, (runTestM flag debugger st n name tr tl).output = st.output ++ s := by
  unfold runTestM runTestUntimedM
  split
  · split
    · exact timeoutBranch_output _ _ _ _ _ _
    · dsimp only
      obtain ⟨s, hs⟩ := runResultLadder_output
        (st.emit (runTestGuardedM flag n name tr.behavior tr.setsExpect).2.1) name
        (runTestGuardedM flag n name tr.behavior tr.setsExpect).1
        (runTestGuardedM flag n name tr.behavior tr.setsExpect).2.2
      exact ⟨_, by rw [hs, RunState.emit, String.append_assoc]⟩
  · dsimp only
    obtain ⟨s, hs⟩ := runResultLadder_output
      (st.emit (runTestGuardedM flag n name tr.behavior tr.setsExpect).2.1) name
      (runTestGuardedM flag n name tr.behavior tr.setsExpect).1
      (runTestGuardedM flag n name tr.behavior tr.setsExpect).2.2
    exact ⟨_, by rw [hs, RunState.emit, String.append_assoc]⟩

/-- The run loop only appends to the output stream. -/
lemma runSelected_output (flag debugger : Bool) (reg : List (String × Int))
    (env : String → TestRun) :
    ∀ (sel : List String) (st : RunState) (n : Nat),
      ∃ s, (runSelected flag debugger reg env st n sel).output = st.output ++ s := by
  intro sel
  induction sel with
  | nil => intro st n; exact ⟨"", (String.append_empty _).symm⟩
  | cons name rest ih =>
    intro st n
    rw [runSelected]
    obtain ⟨s1, hs1⟩ :=
      runTestM_output flag debugger st n name (env name) (lookupTimeLimit reg name)
    obtain ⟨s2, hs2⟩ := ih (runTestM flag debugger st n name (env name)
      (lookupTimeLimit reg name)) (n + 1)
    exact ⟨s1 ++ s2, by rw [hs2, hs1, String.append_assoc]⟩

/-- C6 (amended): the TAP transcript opens with the plan line
`1..<count>` before any per-test output; per-test results are
`ok <n> - <name>` / `not ok <n> - <name>` lines; every line of a multi-line
diagnostic is individually `# `-prefixed, positioned before or after the
result line according to the configuration flag; and the transcript closes
with the summary line `# UnitTest: passed <S> out of <T> tests, ...` —
not with a failed-test-names block or a `<count> FAILED TESTS` line. -/
theorem tap_transcript_format :
    ∀ (flag debugger : Bool) (reg : List (String × Int)) (env : String → TestRun)
      (toks : List String),
      (∃ rest, (fullRunM flag debugger reg env toks).output =
        ("1.." ++ toString (selectedTests reg toks).length) ++ ("\n" ++ rest)) ∧
      (∀ n name, msgPassedStr n name = "ok " ++ toString n ++ " - " ++ name ++ "\n") ∧
      (∀ b n name diag, msgFailedStr b n name diag =
        if b then msgComment diag ++ "\n" ++ ("not ok " ++ toString n ++ " - " ++ name)
        else ("not ok " ++ toString n ++ " - " ++ name) ++ "\n" ++ msgComment diag) ∧
      (∀ s l, l ∈ splitLines (msgComment s).toList → l.take 2 = commentMark) ∧
      (∃ pre S F, (fullRunM flag debugger reg env toks).output = pre ++ msgSummaryStr S F ∧
        msgSummaryStr S F =
          "# UnitTest: passed " ++ toString S ++ " out of " ++ toString (S + F)
            ++ " tests, for a success rate of " ++ oneDecimal S (S + F) ++ "%" ++ "\n") := by
  intro flag debugger reg env toks
  refine ⟨?_, fun n name => rfl, fun b n name diag => rfl, ?_, ?_⟩
  · obtain ⟨s, hs⟩ := runSelected_output flag debugger reg env (selectedTests reg toks)
      ((RunState.initial.emit
          (msgOut ("1.." ++ toString (selectedTests reg toks).length))).emit
        (msgOut (selectLoop (reg.map Prod.fst) [] "" toks).2)) 1
    refine ⟨msgOut (selectLoop (reg.map Prod.fst) [] "" toks).2 ++
      (s ++ msgSummaryStr (runTestsM flag debugger reg env toks).numSuccesses
        (runTestsM flag debugger reg env toks).numFailures), ?_⟩
    have hout : (fullRunM flag debugger reg env toks).output =
        (runSelected flag debugger reg env
          ((RunState.initial.emit
              (msgOut ("1.." ++ toString (selectedTests reg toks).length))).emit
            (msgOut (selectLoop (reg.map Prod.fst) [] "" toks).2)) 1
          (selectedTests reg toks)).output
          ++ msgSummaryStr (runTestsM flag debugger reg env toks).numSuccesses
            (runTestsM flag debugger reg env toks).numFailures := rfl
    rw [hout, hs]
    have hst0 : ((RunState.initial.emit
        (msgOut ("1.." ++ toString (selectedTests reg toks).length))).emit
          (msgOut (selectLoop (reg.map Prod.fst) [] "" toks).2)).output =
        msgOut ("1.." ++ toString (selectedTests reg toks).length)
          ++ msgOut (selectLoop (reg.map Prod.fst) [] "" toks).2 := rfl
    rw [hst0, msgOut_plan]
    simp only [String.append_assoc]
  · intro s l hl
    rw [show (msgComment s).toList = msgCommentL s.toList from rfl] at hl
    rw [msgCommentL_lines] at hl
    obtain ⟨l0, _, rfl⟩ := List.mem_map.mp hl
    exact ensureMark_take2 l0
  · exact ⟨(runTestsM flag debugger reg env toks).output, _, _, rfl, rfl⟩

/-- Witness for the amended C6 at a concrete two-line diagnostic. -/
theorem tap_transcript_format_witness :
    (['#', ' ', 'a'] : List Char).take 2 = commentMark :=
  (tap_transcript_format true false exampleReg exampleEnv []).2.2.2.1
    ("a\nb") (['#', ' ', 'a']) (by decide)

set_option maxRecDepth 10000 in
/-- C6 counterexample: in the concrete run of the single failing test
`alpha`, the failed-test list is nonempty and the transcript contains the
`not ok` line, yet no `FAILED TESTS` text occurs anywhere in the transcript —
the claimed trailing block is absent from the TAP-style output. -/
theorem tap_transcript_no_failed_tests_block :
    exampleRun.failedTests = [("alpha")] ∧
    (findSub exampleRun.output.toList (("not ok 1 - alpha").toList)).isSome = true ∧
    findSub exampleRun.output.toList (("FAILED TESTS").toList) = none := by
  exact ⟨by decide, by decide, by decide⟩

end CppUnitLite
